import Mathlib

/-!
# Verification of the CMIC/SL reconciliation pipeline

A shallow embedding of `CMIC_SL_comparison.py`: the two record normalizers
(`clean_cmic`, `clean_sl`), the synthetic `ID` join key (`combine_cols`), and
the outer-join reconciler (`compare_dfs` / `compare_cols`), together with
theorems settling the specification claims about them.

Modelling conventions:
* A dataframe cell is a `Val`: a string, a rational number (floats are modelled
  by rationals; no claim depends on binary-float rounding), a date, or null
  (pandas `NaN`/`NaT`).
* Element-wise pandas `==` never equates nulls (`NaN == NaN` is `False`);
  this is `valEq`.
* `pd.to_datetime` is modelled opaquely: a date is represented by the string it
  was parsed from, and two dates are equal exactly when those strings are.
  No claim compares two syntactically different spellings of one date.
* Fallible pandas operations (`astype(int)` on null, a Python `split(...)[i]`
  index that is out of range, `astype(float)` on a malformed number) are
  modelled in the `Except String` monad.
-/

/-- One dataframe cell: a string, a number, a date (opaquely the string it was
parsed from), or null (`NaN`/`NaT`/`None`). -/
inductive Val where
  | vstr : String → Val
  | vnum : Rat → Val
  | vdate : String → Val
  | vnull : Val
deriving DecidableEq, Repr

/-- Pandas string-series addition `s + t`: concatenates two strings and
propagates null (string + NaN = NaN) — the semantics used on line 23 of the
source to build `ID`. -/
def strAdd : Val → Val → Val
  | Val.vstr a, Val.vstr b => Val.vstr (a ++ b)
  | _, _ => Val.vnull

/-- Pandas element-wise equality `a == b`: two nulls are *not* equal, a null
equals nothing, and values of different kinds compare unequal. -/
def valEq : Val → Val → Bool
  | Val.vnull, _ => false
  | _, Val.vnull => false
  | a, b => a == b

/-- `combine_cols` (source lines 19–23): fold the column values together with
`'_'` separators, `df[cols[0]] + '_' + combine_cols(df, cols[1:])`. -/
def combine_cols : List Val → Val
  | [] => Val.vnull
  | [v] => v
  | v :: vs => strAdd (strAdd v (Val.vstr "_")) (combine_cols vs)

/-- A string that does not contain the `'_'` separator character. -/
def noUnd (s : String) : Prop := '_' ∉ s.data

instance (s : String) : Decidable (noUnd s) := by
  unfold noUnd; infer_instance

/-- `ID` generation over the six-field key tuple
`(job_no, subcontract_no, item_no, phase_no, category, cont_or_co)`,
as performed by `combine_cols` on lines 65–68 (CMIC) and 125–128 (SL). -/
def mkID (job_no subcontract_no item_no phase_no category cont_or_co : String) : Val :=
  combine_cols [Val.vstr job_no, Val.vstr subcontract_no, Val.vstr item_no,
                Val.vstr phase_no, Val.vstr category, Val.vstr cont_or_co]

/-- The joined string underlying `combine_cols` on all-string columns. -/
def joined : List String → String
  | [] => ""
  | [s] => s
  | s :: ss => s ++ "_" ++ joined ss

theorem combine_cols_map_vstr (l : List String) (hl : l ≠ []) :
    combine_cols (l.map Val.vstr) = Val.vstr (joined l) := by
  induction l with
  | nil => exact absurd rfl hl
  | cons s ss ih =>
    cases ss with
    | nil => rfl
    | cons t ts =>
      have ihe := ih (by simp)
      simp only [List.map_cons] at ihe ⊢
      simp [combine_cols, ihe, strAdd, joined, String.append_assoc]

theorem List.append_cons_inj_of_notMem {a c : List Char} {b d : List Char}
    (ha : '_' ∉ a) (hc : '_' ∉ c)
    (h : a ++ '_' :: b = c ++ '_' :: d) : a = c ∧ b = d := by
  induction a generalizing c with
  | nil =>
    cases c with
    | nil => simpa using h
    | cons y c' =>
      simp only [List.nil_append, List.cons_append, List.cons.injEq] at h
      obtain ⟨h1, -⟩ := h
      subst h1
      exact absurd (List.mem_cons_self _ _) hc
  | cons x a' ih =>
    cases c with
    | nil =>
      simp only [List.cons_append, List.nil_append, List.cons.injEq] at h
      obtain ⟨h1, -⟩ := h
      subst h1
      exact absurd (List.mem_cons_self _ _) ha
    | cons y c' =>
      simp only [List.cons_append, List.cons.injEq] at h
      have := ih (fun hm => ha (List.mem_cons_of_mem _ hm))
        (fun hm => hc (List.mem_cons_of_mem _ hm)) h.2
      exact ⟨by rw [h.1, this.1], this.2⟩

theorem sep_append_inj {a b c d : String}
    (ha : noUnd a) (hc : noUnd c)
    (h : a ++ "_" ++ b = c ++ "_" ++ d) : a = c ∧ b = d := by
  have hd : (a ++ "_" ++ b).data = (c ++ "_" ++ d).data := by rw [h]
  simp only [String.data_append] at hd
  have : a.data ++ '_' :: b.data = c.data ++ '_' :: d.data := by
    simpa using hd
  obtain ⟨h1, h2⟩ := List.append_cons_inj_of_notMem ha hc this
  exact ⟨String.ext h1, String.ext h2⟩

theorem joined_inj : ∀ (l1 l2 : List String), l1.length = l2.length → l1 ≠ [] →
    (∀ s ∈ l1, noUnd s) → (∀ s ∈ l2, noUnd s) →
    joined l1 = joined l2 → l1 = l2
  | [], _, _, hne, _, _, _ => absurd rfl hne
  | _ :: _, [], hlen, _, _, _, _ => by simp at hlen
  | [a], [c], _, _, _, _, h => by simpa [joined] using h
  | [a], c :: c' :: cs, hlen, _, _, _, _ => by simp at hlen
  | a :: a' :: as, [c], hlen, _, _, _, _ => by simp at hlen
  | a :: a' :: as, c :: c' :: cs, hlen, _, h1, h2, h => by
    have hj : a ++ "_" ++ joined (a' :: as) = c ++ "_" ++ joined (c' :: cs) := by
      simpa [joined] using h
    obtain ⟨hac, htail⟩ := sep_append_inj (h1 a (by simp)) (h2 c (by simp)) hj
    have := joined_inj (a' :: as) (c' :: cs) (by simpa using hlen) (by simp)
      (fun s hs => h1 s (List.mem_cons_of_mem _ hs))
      (fun s hs => h2 s (List.mem_cons_of_mem _ hs)) htail
    rw [hac, this]

/-- **C1** (counterexample). The claim asserts `ID` generation is injective
over the key tuple *even when a field value contains the `'_'` separator*.
It is not: two different tuples whose fields embed `'_'` collide on the
same `ID` string `"100_a_b_1_p_3_Contract"`. -/
theorem c1_id_injectivity_counterexample :
    mkID "100" "a_b" "1" "p" "3" "Contract" = mkID "100" "a" "b_1" "p" "3" "Contract"
    ∧ ("100", "a_b", "1", "p", "3", "Contract") ≠ ("100", "a", "b_1", "p", "3", "Contract") :=
  ⟨rfl, by decide⟩

/-- **C1** (amended). `ID` generation is deterministic over the key tuple, and
it is injective provided no field value contains the `'_'` separator character
(the separator-in-field case of the original claim is exactly what fails). -/
theorem c1_mkID_deterministic_and_injective :
    (∀ a b c d e f a' b' c' d' e' f' : String,
      (a, b, c, d, e, f) = (a', b', c', d', e', f') →
      mkID a b c d e f = mkID a' b' c' d' e' f')
    ∧ (∀ a b c d e f a' b' c' d' e' f' : String,
      noUnd a → noUnd b → noUnd c → noUnd d → noUnd e → noUnd f →
      noUnd a' → noUnd b' → noUnd c' → noUnd d' → noUnd e' → noUnd f' →
      mkID a b c d e f = mkID a' b' c' d' e' f' →
      (a, b, c, d, e, f) = (a', b', c', d', e', f')) := by
  constructor
  · intro a b c d e f a' b' c' d' e' f' h
    simp only [Prod.mk.injEq] at h
    obtain ⟨h1, h2, h3, h4, h5, h6⟩ := h
    rw [h1, h2, h3, h4, h5, h6]
  · intro a b c d e f a' b' c' d' e' f' n1 n2 n3 n4 n5 n6 m1 m2 m3 m4 m5 m6 h
    have e1 : mkID a b c d e f = Val.vstr (joined [a, b, c, d, e, f]) :=
      combine_cols_map_vstr [a, b, c, d, e, f] (by simp)
    have e2 : mkID a' b' c' d' e' f' = Val.vstr (joined [a', b', c', d', e', f']) :=
      combine_cols_map_vstr [a', b', c', d', e', f'] (by simp)
    rw [e1, e2, Val.vstr.injEq] at h
    have hl := joined_inj [a, b, c, d, e, f] [a', b', c', d', e', f'] (by simp) (by simp)
      (by intro s hs; simp only [List.mem_cons, List.not_mem_nil, or_false] at hs
          rcases hs with h | h | h | h | h | h <;> subst h <;> assumption)
      (by intro s hs; simp only [List.mem_cons, List.not_mem_nil, or_false] at hs
          rcases hs with h | h | h | h | h | h <;> subst h <;> assumption) h
    simpa using hl

/-- Witness for the amended C1 theorem at concrete underscore-free inputs. -/
theorem c1_mkID_deterministic_and_injective_witness :
    ("100", "5", "20", "0010000", "3", "Contract")
      = (("100" : String), "5", "20", "0010000", "3", "Contract") :=
  c1_mkID_deterministic_and_injective.2 "100" "5" "20" "0010000" "3" "Contract"
    "100" "5" "20" "0010000" "3" "Contract"
    (by decide) (by decide) (by decide) (by decide) (by decide) (by decide)
    (by decide) (by decide) (by decide) (by decide) (by decide) (by decide)
    rfl

/-- The canonical column names of `cols_to_keep` (source lines 144–147),
apart from the join key `ID`, which is carried separately. -/
inductive Col where
  | job_no | job_name | subcontract_no | vendor_no | vendor_name
  | item_no | item_name | category | phase_no | job_cost_no
  | cont_or_co | co_date | qty | qty_type | dollar_amount
  | cont_total | vendor_total
deriving DecidableEq, Repr, Fintype

/-- A Canonical Record: one normalized row restricted to `cols_to_keep`
(source lines 144–147) plus the synthetic join key `ID`. -/
structure Record where
  job_no : Val
  job_name : Val
  subcontract_no : Val
  vendor_no : Val
  vendor_name : Val
  item_no : Val
  item_name : Val
  category : Val
  phase_no : Val
  job_cost_no : Val
  cont_or_co : Val
  co_date : Val
  qty : Val
  qty_type : Val
  dollar_amount : Val
  cont_total : Val
  vendor_total : Val
  ID : Val
deriving DecidableEq, Repr

/-- Column access on a canonical record. -/
def Record.get (r : Record) : Col → Val
  | Col.job_no => r.job_no
  | Col.job_name => r.job_name
  | Col.subcontract_no => r.subcontract_no
  | Col.vendor_no => r.vendor_no
  | Col.vendor_name => r.vendor_name
  | Col.item_no => r.item_no
  | Col.item_name => r.item_name
  | Col.category => r.category
  | Col.phase_no => r.phase_no
  | Col.job_cost_no => r.job_cost_no
  | Col.cont_or_co => r.cont_or_co
  | Col.co_date => r.co_date
  | Col.qty => r.qty
  | Col.qty_type => r.qty_type
  | Col.dollar_amount => r.dollar_amount
  | Col.cont_total => r.cont_total
  | Col.vendor_total => r.vendor_total

/-- `cols_to_compare` (source lines 152–155): every kept column except
`vendor_no` (and the join key `ID`). -/
def colsToCompare : List Col :=
  [Col.job_no, Col.job_name, Col.subcontract_no, Col.vendor_name,
   Col.item_no, Col.item_name, Col.category, Col.phase_no, Col.job_cost_no,
   Col.cont_or_co, Col.co_date, Col.qty, Col.qty_type, Col.dollar_amount,
   Col.cont_total, Col.vendor_total]

/-- One row of `pd.merge(..., how='outer', on='ID', suffixes=('_cmic','_sl'))`
(source lines 148–149): the key, plus the matched record of each side when one
exists.  A side that is absent contributes `NaN` in every suffixed column. -/
structure MergedRow where
  ID : Val
  cmic : Option Record
  sl : Option Record
deriving DecidableEq, Repr

/-- The `_cmic`-suffixed value of a merged row: `NaN` when the `ID` was absent
from the CMIC side. -/
def MergedRow.cmicVal (m : MergedRow) (f : Col) : Val :=
  match m.cmic with
  | some r => r.get f
  | none => Val.vnull

/-- The `_sl`-suffixed value of a merged row: `NaN` when the `ID` was absent
from the SL side. -/
def MergedRow.slVal (m : MergedRow) (f : Col) : Val :=
  match m.sl with
  | some r => r.get f
  | none => Val.vnull

/-- The rows a single left (CMIC) record contributes to the outer join: one
row per matching SL record, or a single row with nulls on the SL side when no
SL record shares its `ID`. -/
def mergeLeft (sl : List Record) (c : Record) : List MergedRow :=
  let ms := sl.filter fun s => s.ID == c.ID
  if ms.isEmpty then [⟨c.ID, some c, none⟩]
  else ms.map fun s => ⟨c.ID, some c, some s⟩

/-- The rows contributed by SL records whose `ID` never occurs on the CMIC
side: nulls on the CMIC side. -/
def mergeRightOnly (cmic sl : List Record) : List MergedRow :=
  (sl.filter fun s => cmic.all fun c => !(c.ID == s.ID)).map
    fun s => ⟨s.ID, none, some s⟩

/-- The full outer join of source lines 148–149: every CMIC row paired with
every SL row sharing its `ID` (alone, with nulls on the SL side, when no SL row
matches), followed by the SL rows whose `ID` never occurs on the CMIC side. -/
def outerMerge (cmic sl : List Record) : List MergedRow :=
  cmic.flatMap (mergeLeft sl) ++ mergeRightOnly cmic sl

/-- One row of the comparison output: the merged row together with the
`<col>_zcomparison` columns.  `cmp f = none` models the absence of a
`_zcomparison` column for a field outside `cols_to_compare`. -/
structure CompRow where
  merged : MergedRow
  cmp : Col → Option Bool

/-- `compare_cols` (source lines 135–139): for each compared column, the
element-wise equality of the `_cmic` and `_sl` values. -/
def compare_cols (m : MergedRow) : Col → Option Bool :=
  fun f => if f ∈ colsToCompare then some (valEq (m.cmicVal f) (m.slVal f)) else none

/-- One output row of `compare_dfs`: the per-column comparisons of
`compare_cols` (line 158), with `co_date_zcomparison` forced to `True` when
both `cont_or_co` values are `'Contract'` (line 159). -/
def mkCompRow (m : MergedRow) : CompRow :=
  if valEq (m.slVal Col.cont_or_co) (Val.vstr "Contract")
      && valEq (m.cmicVal Col.cont_or_co) (Val.vstr "Contract") then
    ⟨m, fun f => if f = Col.co_date then some true else compare_cols m f⟩
  else
    ⟨m, compare_cols m⟩

/-- `compare_dfs` (source lines 141–164): outer-merge the two sets on `ID`,
compare the columns, then (line 159) force `co_date_zcomparison` to `True` on
every row whose two `cont_or_co` values are both `'Contract'`.  The final
lexicographic column reordering (line 162) does not change row contents and is
not modelled. -/
def compare_dfs (cmic sl : List Record) : List CompRow :=
  (outerMerge cmic sl).map mkCompRow

theorem mkCompRow_merged (m : MergedRow) : (mkCompRow m).merged = m := by
  rw [mkCompRow]; split <;> rfl

theorem valEq_vstr_iff (v : Val) (s : String) : valEq v (Val.vstr s) = true ↔ v = Val.vstr s := by
  cases v <;> simp [valEq]

theorem compare_dfs_row_shape (cmic sl : List Record) (row : CompRow)
    (h : row ∈ compare_dfs cmic sl) :
    ∃ m ∈ outerMerge cmic sl, row.merged = m ∧
      ∀ f, row.cmp f =
        if valEq (m.slVal Col.cont_or_co) (Val.vstr "Contract")
            && valEq (m.cmicVal Col.cont_or_co) (Val.vstr "Contract") then
          (if f = Col.co_date then some true else compare_cols m f)
        else compare_cols m f := by
  simp only [compare_dfs, List.mem_map] at h
  obtain ⟨m, hm, heq⟩ := h
  refine ⟨m, hm, ?_⟩
  rw [mkCompRow] at heq
  split at heq <;> subst heq
  · next hcond => exact ⟨rfl, fun f => by rw [if_pos hcond]⟩
  · next hcond => exact ⟨rfl, fun f => by rw [if_neg hcond]⟩

/-- **C6**. In every output row of `compare_dfs` whose two `cont_or_co` values
are both `'Contract'`, the forced assignment of source line 159 makes
`co_date_zcomparison` true, regardless of the underlying `co_date` values. -/
theorem c6_contract_forces_co_date_true :
    ∀ (cmic sl : List Record), ∀ row ∈ compare_dfs cmic sl,
      row.merged.cmicVal Col.cont_or_co = Val.vstr "Contract" →
      row.merged.slVal Col.cont_or_co = Val.vstr "Contract" →
      row.cmp Col.co_date = some true := by
  intro cmic sl row hrow hc hs
  obtain ⟨m, hm, hme, hcmp⟩ := compare_dfs_row_shape cmic sl row hrow
  rw [hme] at hc hs
  have h := hcmp Col.co_date
  rw [hc, hs] at h
  simpa using h

/-- **C7**. For every compared column, an output row whose two sides are both
null gets a `false` comparison — null is never equal to null — except for
`co_date` on a row whose two `cont_or_co` values are both `'Contract'`. -/
theorem c7_null_never_equals_null :
    ∀ (cmic sl : List Record), ∀ row ∈ compare_dfs cmic sl, ∀ f ∈ colsToCompare,
      row.merged.cmicVal f = Val.vnull →
      row.merged.slVal f = Val.vnull →
      ¬(f = Col.co_date
        ∧ row.merged.cmicVal Col.cont_or_co = Val.vstr "Contract"
        ∧ row.merged.slVal Col.cont_or_co = Val.vstr "Contract") →
      row.cmp f = some false := by
  intro cmic sl row hrow f hf hcn hsn hexc
  obtain ⟨m, hm, hme, hcmp⟩ := compare_dfs_row_shape cmic sl row hrow
  rw [hme] at hcn hsn hexc
  have hbase : compare_cols m f = some false := by
    rw [compare_cols]
    simp only [hf, if_true, hcn, hsn]
    rfl
  rw [hcmp f]
  split
  · next hcond =>
    simp only [Bool.and_eq_true, valEq_vstr_iff] at hcond
    have hfne : ¬(f = Col.co_date) := fun hfd => hexc ⟨hfd, hcond.2, hcond.1⟩
    rw [if_neg hfne, hbase]
  · exact hbase

theorem countP_id_eq_count (l : List Record) (i : Val) :
    l.countP (fun c => c.ID == i) = (l.map Record.ID).count i := by
  rw [List.count_eq_countP, List.countP_map]
  rfl

theorem countP_mergeLeft (sl : List Record) (c : Record) (i : Val)
    (hs : (sl.map Record.ID).Nodup) :
    (mergeLeft sl c).countP (fun m => m.ID == i) = if c.ID == i then 1 else 0 := by
  rw [mergeLeft]
  split
  · simp [List.countP_cons]
  · next hne =>
    rw [List.countP_map]
    have hconst : ((fun m : MergedRow => m.ID == i) ∘ fun s => (⟨c.ID, some c, some s⟩ : MergedRow))
        = fun _ => c.ID == i := rfl
    rw [hconst]
    have hle : (sl.filter fun s => s.ID == c.ID).length ≤ 1 := by
      rw [← List.countP_eq_length_filter, countP_id_eq_count]
      exact List.nodup_iff_count_le_one.mp hs _
    have hpos : 0 < (sl.filter fun s => s.ID == c.ID).length := by
      cases hx : sl.filter fun s => s.ID == c.ID with
      | nil => rw [hx] at hne; simp at hne
      | cons a l => simp [hx]
    have hlen : (sl.filter fun s => s.ID == c.ID).length = 1 := Nat.le_antisymm hle hpos
    cases hci : c.ID == i with
    | true => simpa [List.countP_true] using hlen
    | false => simp [List.countP_false]

theorem countP_flatMap_mergeLeft (cmic sl : List Record) (i : Val)
    (hs : (sl.map Record.ID).Nodup) :
    (cmic.flatMap (mergeLeft sl)).countP (fun m => m.ID == i)
      = cmic.countP (fun c => c.ID == i) := by
  induction cmic with
  | nil => rfl
  | cons c cs ih =>
    rw [List.flatMap_cons, List.countP_append, ih, countP_mergeLeft sl c i hs,
      List.countP_cons]
    cases c.ID == i <;> simp [Nat.add_comm]

theorem countP_mergeRightOnly (cmic sl : List Record) (i : Val) :
    (mergeRightOnly cmic sl).countP (fun m => m.ID == i)
      = if i ∈ cmic.map Record.ID then 0 else sl.countP (fun s => s.ID == i) := by
  rw [mergeRightOnly, List.countP_map]
  have hcomp : ((fun m : MergedRow => m.ID == i) ∘ fun s => (⟨s.ID, none, some s⟩ : MergedRow))
      = fun s : Record => s.ID == i := rfl
  rw [hcomp, List.countP_filter]
  split
  · next hmem =>
    rw [List.countP_eq_zero]
    intro s _ hps
    simp only [Bool.and_eq_true, beq_iff_eq, List.all_eq_true] at hps
    obtain ⟨hsi, hall⟩ := hps
    obtain ⟨c, hc, hci⟩ := List.mem_map.mp hmem
    have := hall c hc
    rw [hci, hsi] at this
    simp at this
  · next hnmem =>
    apply List.countP_congr
    intro s _
    simp only [Bool.and_eq_true, beq_iff_eq, List.all_eq_true]
    constructor
    · intro h; exact h.1
    · intro h
      refine ⟨h, fun c hc => ?_⟩
      have : c.ID ≠ s.ID := by
        intro hce
        exact hnmem (List.mem_map.mpr ⟨c, hc, hce.trans h⟩)
      simpa using this

theorem countP_compare_dfs (cmic sl : List Record) (p : MergedRow → Bool) :
    (compare_dfs cmic sl).countP (fun r => p r.merged)
      = (outerMerge cmic sl).countP p := by
  rw [compare_dfs, List.countP_map]
  apply List.countP_congr
  intro m _
  simp [Function.comp, mkCompRow_merged]

theorem outerMerge_sl_none (cmic sl : List Record) (m : MergedRow)
    (hm : m ∈ outerMerge cmic sl) (hnot : m.ID ∉ sl.map Record.ID) :
    m.sl = none := by
  rw [outerMerge] at hm
  rcases List.mem_append.mp hm with h | h
  · obtain ⟨c, _, hmc⟩ := List.mem_flatMap.mp h
    rw [mergeLeft] at hmc
    split at hmc
    · rw [List.mem_singleton.mp hmc]
    · obtain ⟨s, hs, hms⟩ := List.mem_map.mp hmc
      obtain ⟨hsl, hsid⟩ := List.mem_filter.mp hs
      refine absurd (List.mem_map.mpr ⟨s, hsl, ?_⟩) hnot
      rw [← hms]
      simpa using hsid
  · rw [mergeRightOnly] at h
    obtain ⟨s, hs, hms⟩ := List.mem_map.mp h
    exact absurd (List.mem_map.mpr ⟨s, (List.mem_filter.mp hs).1, by rw [← hms]⟩) hnot

theorem outerMerge_cmic_none (cmic sl : List Record) (m : MergedRow)
    (hm : m ∈ outerMerge cmic sl) (hnot : m.ID ∉ cmic.map Record.ID) :
    m.cmic = none := by
  rw [outerMerge] at hm
  rcases List.mem_append.mp hm with h | h
  · obtain ⟨c, hc, hmc⟩ := List.mem_flatMap.mp h
    have hcid : m.ID = c.ID := by
      rw [mergeLeft] at hmc
      split at hmc
      · rw [List.mem_singleton.mp hmc]
      · obtain ⟨s, _, hms⟩ := List.mem_map.mp hmc
        rw [← hms]
    exact absurd (List.mem_map.mpr ⟨c, hc, hcid.symm⟩) hnot
  · rw [mergeRightOnly] at h
    obtain ⟨s, _, hms⟩ := List.mem_map.mp h
    rw [← hms]

/-- **C2** (amended). `compare_dfs` performs a full outer join on `ID`
*provided* `ID` is unique within each input (which normalization does not in
fact guarantee — see the counterexample): every `ID` present in either input
appears exactly once in the output, and a row whose `ID` is missing from the
SL (CMIC) input carries null in every `_sl`-suffixed (`_cmic`-suffixed)
column. -/
theorem c2_compare_dfs_full_outer_join :
    ∀ (cmic sl : List Record),
      (cmic.map Record.ID).Nodup → (sl.map Record.ID).Nodup →
      (∀ i : Val, i ∈ cmic.map Record.ID ∨ i ∈ sl.map Record.ID →
        (compare_dfs cmic sl).countP (fun r => r.merged.ID == i) = 1)
      ∧ (∀ row ∈ compare_dfs cmic sl, row.merged.ID ∉ sl.map Record.ID →
          ∀ f : Col, row.merged.slVal f = Val.vnull)
      ∧ (∀ row ∈ compare_dfs cmic sl, row.merged.ID ∉ cmic.map Record.ID →
          ∀ f : Col, row.merged.cmicVal f = Val.vnull) := by
  intro cmic sl hc hs
  refine ⟨?_, ?_, ?_⟩
  · intro i hi
    rw [countP_compare_dfs cmic sl (fun m => m.ID == i), outerMerge,
      List.countP_append, countP_flatMap_mergeLeft cmic sl i hs,
      countP_mergeRightOnly cmic sl i]
    rcases Decidable.em (i ∈ cmic.map Record.ID) with hmem | hnmem
    · rw [if_pos hmem, countP_id_eq_count, List.count_eq_one_of_mem hc hmem]
    · have hsl : i ∈ sl.map Record.ID := hi.resolve_left hnmem
      rw [if_neg hnmem, countP_id_eq_count, List.count_eq_zero_of_not_mem hnmem,
        countP_id_eq_count, List.count_eq_one_of_mem hs hsl]
  · intro row hrow hnot f
    obtain ⟨m, hm, hme, -⟩ := compare_dfs_row_shape cmic sl row hrow
    rw [hme] at hnot ⊢
    rw [MergedRow.slVal, outerMerge_sl_none cmic sl m hm hnot]
  · intro row hrow hnot f
    obtain ⟨m, hm, hme, -⟩ := compare_dfs_row_shape cmic sl row hrow
    rw [hme] at hnot ⊢
    rw [MergedRow.cmicVal, outerMerge_cmic_none cmic sl m hm hnot]

/-- A raw cell of a column that `pd.to_numeric` is applied to: a number, an
arbitrary (possibly non-numeric) string, or null. -/
inductive RawCell where
  | num : Rat → RawCell
  | str : String → RawCell
  | null : RawCell
deriving DecidableEq, Repr

/-- Rational division, written through `Rat.divInt` so that concrete instances
evaluate by kernel reduction (`Rat.inv`/`Rat.mul` do not); it agrees with `/`,
see `ratDiv_eq_div`. -/
def ratDiv (a b : Rat) : Rat := Rat.divInt (a.num * b.den) (b.num * a.den)

theorem ratDiv_eq_div (a b : Rat) : ratDiv a b = a / b := by
  rw [ratDiv, Rat.divInt_eq_div]
  rcases eq_or_ne b 0 with rfl | hb
  · simp
  · have had : (a.den : Rat) ≠ 0 := by exact_mod_cast a.den_nz
    have hbd : (b.den : Rat) ≠ 0 := by exact_mod_cast b.den_nz
    have hbn : (b.num : Rat) ≠ 0 := by exact_mod_cast Rat.num_ne_zero.mpr hb
    have ha := Rat.num_div_den a
    rw [div_eq_iff had] at ha
    have hb2 := Rat.num_div_den b
    rw [div_eq_iff hbd] at hb2
    push_cast
    rw [div_eq_div_iff (mul_ne_zero hbn had) hb, ha, hb2]
    ring

/-!
Character-list implementations of the Python string operations the scripts
use (`strip`, `lower`, slicing, `split`, `startswith`, digit parsing).  They
follow Python's semantics; they are written by structural recursion over
`String.data` because the iterator-based library versions are defined by
well-founded recursion and do not evaluate inside the kernel.
-/

/-- Python `s.strip()`: remove leading and trailing whitespace. -/
def pyStrip (s : String) : String :=
  String.mk (((s.data.dropWhile Char.isWhitespace).reverse.dropWhile
    Char.isWhitespace).reverse)

/-- Python `s.strip(c)` for a single strip character. -/
def pyStripChar (c : Char) (s : String) : String :=
  String.mk (((s.data.dropWhile (· == c)).reverse.dropWhile (· == c)).reverse)

/-- Python `s.lower()` on the ASCII data these exports contain. -/
def pyLower (s : String) : String := String.mk (s.data.map Char.toLower)

/-- Python `s[0:n]`: the first `n` code points. -/
def pySlice (n : Nat) (s : String) : String := String.mk (s.data.take n)

/-- Python `s.startswith(pre)`. -/
def pyStartsWith (pre s : String) : Bool := pre.data.isPrefixOf s.data

/-- Python `s[n:]`. -/
def pyDrop (n : Nat) (s : String) : String := String.mk (s.data.drop n)

/-- `int(s)` on an unsigned decimal digit string. -/
def digitsToNat? (l : List Char) : Option Nat :=
  if !l.isEmpty && l.all Char.isDigit then
    some (l.foldl (fun acc c => acc * 10 + (c.toNat - '0'.toNat)) 0)
  else none

/-- The left-to-right, non-overlapping scan of Python `s.split(sep)` for a
non-empty separator.  `fuel` only bounds the recursion depth; every call site
passes more fuel than the scan can consume (one unit per character). -/
def splitGo (fuel : Nat) (sep : List Char) (l : List Char) (cur : List Char) :
    List (List Char) :=
  match fuel with
  | 0 => []
  | fuel + 1 =>
    match l with
    | [] => [cur.reverse]
    | c :: rest =>
      if sep.isPrefixOf l then
        cur.reverse :: splitGo fuel sep (l.drop sep.length) []
      else
        splitGo fuel sep rest (c :: cur)

/-- Python `s.split(sep)` for a non-empty separator. -/
def pySplit (sep : String) (s : String) : List String :=
  (splitGo (s.data.length + 1) sep.data s.data []).map String.mk

/-- A decimal literal with optional sign and fractional part, the numeric
string forms accepted by pandas' parsers that matter here
(`n.f = (n·10^len(f) + f) / 10^len(f)`). -/
def parseFloat? (s : String) : Option Rat :=
  let t := pyStrip s
  let neg := pyStartsWith "-" t
  let u := if neg then pyDrop 1 t else t
  match pySplit "." u with
  | [a] => (digitsToNat? a.data).map fun n => if neg then -(n : Rat) else (n : Rat)
  | [a, b] =>
    match digitsToNat? a.data, digitsToNat? b.data with
    | some n, some fr =>
      let den : Nat := 10 ^ b.length
      let v : Rat := mkRat (n * den + fr) den
      some (if neg then -v else v)
    | _, _ => none
  | _ => none

/-- `pd.to_numeric(col, errors="coerce")` (source line 51): numbers pass
through, numeric strings parse, everything else coerces to null. -/
def to_numeric : RawCell → Option Rat
  | RawCell.num q => some q
  | RawCell.str s => parseFloat? s
  | RawCell.null => none

/-- `cmic_cont_or_co` (source lines 29–33) applied to the coerced `co_code`:
`'Contract'` when `val == 0`, else `'CO'`.  A null (`NaN`) compares unequal
to `0`, so it yields `'CO'`. -/
def cmic_cont_or_co (val : Option Rat) : String :=
  match val with
  | some v => if v == 0 then "Contract" else "CO"
  | none => "CO"

/-- Truncation toward zero, the behaviour of Python's `int()` /
numpy's `astype(int)` on a finite float. -/
def ratTrunc (q : Rat) : Int := q.num.tdiv q.den

/-- `convert_to_str` (source lines 16–17): `val.astype(int).astype(str)`.
`astype(int)` raises on a null (non-finite) value; otherwise it truncates and
the integer prints in decimal. -/
def convert_to_str (val : Option Rat) : Except String String :=
  match val with
  | none => Except.error "ValueError: cannot convert non-finite values to integer"
  | some q => Except.ok (toString (ratTrunc q))

/-- Pandas `.astype(str)` on one cell: a null becomes the literal string
`"nan"`. -/
def pdAstypeStr : Option String → String
  | some s => s
  | none => "nan"

/-- `pd.to_datetime(col, infer_datetime_format=True)` (source lines 54 and
95), modelled opaquely: the parsed date is represented by its source string,
null (`NaT`) stays null.  Distinct spellings of one date are not identified;
no claim depends on that. -/
def to_datetime (v : Option String) : Option String := v

def optStrVal : Option String → Val
  | some s => Val.vstr s
  | none => Val.vnull

def optNumVal : Option Rat → Val
  | some q => Val.vnum q
  | none => Val.vnull

def optDateVal : Option String → Val
  | some d => Val.vdate d
  | none => Val.vnull

/-- One raw row of a CMIC export after the column renaming of source lines
36–47.  Numeric columns (`job_no`, `vendor_no`, `item_no`, `job_cost_no`,
`category`, the money/quantity columns) hold a number or null; `co_code` may
also hold a non-numeric string (line 51 coerces it); the rest are string
columns.  A `none` in a column fed to `convert_to_str` covers both a null and
any other value `astype(int)` cannot cast. -/
structure CmicRaw where
  job_no : Option Rat
  job_name : Option String
  subcontract_no : Option String
  vendor_no : Option Rat
  vendor_name : Option String
  item_no : Option Rat
  item_name : Option String
  category : Option Rat
  phase_no : Option String
  job_cost_no : Option Rat
  co_code : RawCell
  co_date : Option String
  qty : Option Rat
  qty_type : Option String
  dollar_amount : Option Rat
  cont_total : Option Rat
  vendor_total : Option Rat
deriving DecidableEq, Repr

/-- Monadic map over `Except`, the row-wise view of applying the fallible
column transformations to every row: the result is `ok` exactly when every
row converts, which matches the column-wise pandas evaluation order up to
*which* error is reported first. -/
def exceptMapM (f : α → Except String β) : List α → Except String (List β)
  | [] => Except.ok []
  | x :: xs =>
    match f x with
    | Except.error e => Except.error e
    | Except.ok y =>
      match exceptMapM f xs with
      | Except.error e => Except.error e
      | Except.ok ys => Except.ok (y :: ys)

/-- The body of `clean_cmic` (source lines 50–68) for one retained row. -/
def cmicExtract (r : CmicRaw) : Except String Record := do
  let co_code := to_numeric r.co_code
  let cont_or_co := cmic_cont_or_co co_code
  let category := r.category.map fun q => ratDiv q 100
  let co_date := to_datetime r.co_date
  let item_name := pyLower (pyStrip (pySlice 30 (pdAstypeStr r.item_name)))
  let vendor_name := pyLower (pyStrip (pySlice 15 (pdAstypeStr r.vendor_name)))
  let phase0 := pdAstypeStr r.phase_no
  let phase_no := if phase0.length == 6 then phase0 ++ "0" else phase0
  let job_no ← convert_to_str r.job_no
  let vendor_no ← convert_to_str r.vendor_no
  let item_no ← convert_to_str r.item_no
  let job_cost_no ← convert_to_str r.job_cost_no
  let category_s ← convert_to_str category
  Except.ok {
    job_no := Val.vstr job_no
    job_name := optStrVal r.job_name
    subcontract_no := optStrVal r.subcontract_no
    vendor_no := Val.vstr vendor_no
    vendor_name := Val.vstr vendor_name
    item_no := Val.vstr item_no
    item_name := Val.vstr item_name
    category := Val.vstr category_s
    phase_no := Val.vstr phase_no
    job_cost_no := Val.vstr job_cost_no
    cont_or_co := Val.vstr cont_or_co
    co_date := optDateVal co_date
    qty := optNumVal r.qty
    qty_type := optStrVal r.qty_type
    dollar_amount := optNumVal r.dollar_amount
    cont_total := optNumVal r.cont_total
    vendor_total := optNumVal r.vendor_total
    ID := combine_cols [Val.vstr job_no, optStrVal r.subcontract_no, Val.vstr item_no,
      Val.vstr phase_no, Val.vstr category_s, Val.vstr cont_or_co] }

/-- `clean_cmic` (source lines 35–70): drop the rows with null `job_no`
(line 50), then apply the column transformations of lines 51–68 to every
remaining row. -/
def clean_cmic (rows : List CmicRaw) : Except String (List Record) :=
  exceptMapM cmicExtract (rows.filter fun r => r.job_no.isSome)

/-- Whether an `Except` computation raised. -/
def isErr : Except String α → Bool
  | Except.error _ => true
  | Except.ok _ => false

theorem except_bind_ok {α β : Type} {x : Except String α} {f : α → Except String β} {b : β} :
    x >>= f = Except.ok b ↔ ∃ a, x = Except.ok a ∧ f a = Except.ok b := by
  cases x <;> simp [Bind.bind, Except.bind]

theorem exceptMapM_ok_iff (f : α → Except String β) (l : List α) (ys : List β) :
    exceptMapM f l = Except.ok ys ↔ List.Forall₂ (fun x y => f x = Except.ok y) l ys := by
  induction l generalizing ys with
  | nil =>
    cases ys <;> simp [exceptMapM]
  | cons x xs ih =>
    rw [exceptMapM]
    cases hfx : f x with
    | error e =>
      simp only []
      constructor
      · intro h; cases h
      · intro h
        cases h with
        | cons hy ht => rw [hfx] at hy; cases hy
    | ok y =>
      cases hrec : exceptMapM f xs with
      | error e =>
        simp only []
        constructor
        · intro h; cases h
        · intro h
          cases h with
          | cons hy ht =>
            rw [(ih _).mpr ht] at hrec
            cases hrec
      | ok ys' =>
        simp only []
        constructor
        · intro h
          cases h
          exact List.Forall₂.cons hfx ((ih _).mp hrec)
        · intro h
          cases h with
          | cons hy ht =>
            rw [hfx] at hy
            cases hy
            rw [(ih _).mpr ht] at hrec
            cases hrec
            rfl

theorem forall₂_mem_right {R : α → β → Prop} {l : List α} {ys : List β}
    (h : List.Forall₂ R l ys) {b : β} (hb : b ∈ ys) : ∃ a ∈ l, R a b := by
  induction h with
  | nil => simp at hb
  | cons hr ht ih =>
    rcases List.mem_cons.mp hb with rfl | hb'
    · exact ⟨_, List.mem_cons_self _ _, hr⟩
    · obtain ⟨a, ha, hR⟩ := ih hb'
      exact ⟨a, List.mem_cons_of_mem _ ha, hR⟩

theorem forall₂_mem_left {R : α → β → Prop} {l : List α} {ys : List β}
    (h : List.Forall₂ R l ys) {a : α} (ha : a ∈ l) : ∃ b ∈ ys, R a b := by
  induction h with
  | nil => simp at ha
  | cons hr ht ih =>
    rcases List.mem_cons.mp ha with rfl | ha'
    · exact ⟨_, List.mem_cons_self _ _, hr⟩
    · obtain ⟨b, hb, hR⟩ := ih ha'
      exact ⟨b, List.mem_cons_of_mem _ hb, hR⟩

theorem exceptMapM_error_of_mem (f : α → Except String β) (l : List α) (a : α)
    (ha : a ∈ l) (he : isErr (f a) = true) : isErr (exceptMapM f l) = true := by
  induction l with
  | nil => simp at ha
  | cons x xs ih =>
    rw [exceptMapM]
    cases hfx : f x with
    | error e => rfl
    | ok y =>
      rcases List.mem_cons.mp ha with rfl | ha'
      · rw [hfx] at he; cases he
      · cases hrec : exceptMapM f xs with
        | error e => rfl
        | ok ys =>
          have := ih ha'
          rw [hrec] at this
          cases this

/-- The six key columns combined into `ID` (source lines 65–66 / 125–126). -/
def keyVals (rec : Record) : List Val :=
  [rec.job_no, rec.subcontract_no, rec.item_no, rec.phase_no,
   rec.category, rec.cont_or_co]

theorem cmicExtract_ok_shape (r : CmicRaw) (rec : Record)
    (h : cmicExtract r = Except.ok rec) :
    rec.cont_or_co = Val.vstr (cmic_cont_or_co (to_numeric r.co_code))
    ∧ rec.ID = combine_cols (keyVals rec)
    ∧ r.vendor_no.isSome ∧ r.item_no.isSome ∧ r.job_cost_no.isSome
    ∧ r.category.isSome := by
  rw [cmicExtract] at h
  obtain ⟨jn, hjn, h⟩ := except_bind_ok.mp h
  obtain ⟨vn, hvn, h⟩ := except_bind_ok.mp h
  obtain ⟨itn, hitn, h⟩ := except_bind_ok.mp h
  obtain ⟨jcn, hjcn, h⟩ := except_bind_ok.mp h
  obtain ⟨cat, hcat, h⟩ := except_bind_ok.mp h
  cases h
  refine ⟨rfl, rfl, ?_, ?_, ?_, ?_⟩
  · cases hv : r.vendor_no with
    | none => rw [hv, convert_to_str] at hvn; cases hvn
    | some q => rfl
  · cases hv : r.item_no with
    | none => rw [hv, convert_to_str] at hitn; cases hitn
    | some q => rfl
  · cases hv : r.job_cost_no with
    | none => rw [hv, convert_to_str] at hjcn; cases hjcn
    | some q => rfl
  · cases hv : r.category with
    | none => rw [hv] at hcat; simp [convert_to_str] at hcat
    | some q => rfl

/-- **C5**. Every record produced by `clean_cmic` gets
`cont_or_co = cmic_cont_or_co(to_numeric(co_code))` from some input row, and
that function yields `'Contract'` exactly on a numeric zero: `'CO'` on every
other number and on a null — which is what any non-numeric `co_code` has been
coerced to. -/
theorem c5_cmic_cont_or_co_spec :
    (∀ (rows : List CmicRaw) (recs : List Record), clean_cmic rows = Except.ok recs →
      ∀ rec ∈ recs, ∃ r ∈ rows,
        rec.cont_or_co = Val.vstr (cmic_cont_or_co (to_numeric r.co_code)))
    ∧ cmic_cont_or_co (some 0) = "Contract"
    ∧ (∀ q : Rat, q ≠ 0 → cmic_cont_or_co (some q) = "CO")
    ∧ cmic_cont_or_co none = "CO" := by
  refine ⟨?_, rfl, ?_, rfl⟩
  · intro rows recs h rec hrec
    rw [clean_cmic] at h
    obtain ⟨r, hr, hok⟩ :=
      forall₂_mem_right ((exceptMapM_ok_iff _ _ _).mp h) hrec
    exact ⟨r, List.mem_of_mem_filter hr, (cmicExtract_ok_shape r rec hok).1⟩
  · intro q hq
    rw [cmic_cont_or_co, if_neg]
    simpa using hq

/-- Witness for C5 at a concrete two-row input: a numeric-zero `co_code`
yields `'Contract'` and a non-numeric one yields `'CO'`. -/
theorem c5_cmic_cont_or_co_spec_witness :
    cmic_cont_or_co (to_numeric (RawCell.num 0)) = "Contract"
    ∧ cmic_cont_or_co (to_numeric (RawCell.str "PCO 12")) = "CO"
    ∧ cmic_cont_or_co (some 5) = "CO" :=
  ⟨rfl, rfl, c5_cmic_cont_or_co_spec.2.2.1 5 (by norm_num)⟩

/-- The CMIC row of the spec's example scenario:
`job_no="100", subcontract_no="5", item_no="20", phase_no="0010000",
category="300", co_code=0`. -/
def cmicRow9 : CmicRaw :=
  { job_no := some 100, job_name := some "JOB", subcontract_no := some "5",
    vendor_no := some 7, vendor_name := some "VENDOR", item_no := some 20,
    item_name := some "ITEM", category := some 300, phase_no := some "0010000",
    job_cost_no := some 9, co_code := RawCell.num 0, co_date := none,
    qty := some 1, qty_type := some "LS", dollar_amount := some 10,
    cont_total := some 10, vendor_total := some 10 }

/-- **C9**. On the example row, `clean_cmic` turns `category` 300 into the
string `"3"`, leaves the 7-character `phase_no` unchanged, classifies
`co_code = 0` as `'Contract'`, and builds
`ID = "100_5_20_0010000_3_Contract"`. -/
theorem c9_clean_cmic_example_row :
    (clean_cmic [cmicRow9]).map (List.map Record.category) = Except.ok [Val.vstr "3"]
    ∧ (clean_cmic [cmicRow9]).map (List.map Record.phase_no)
        = Except.ok [Val.vstr "0010000"]
    ∧ (clean_cmic [cmicRow9]).map (List.map Record.cont_or_co)
        = Except.ok [Val.vstr "Contract"]
    ∧ (clean_cmic [cmicRow9]).map (List.map Record.ID)
        = Except.ok [Val.vstr "100_5_20_0010000_3_Contract"] :=
  ⟨rfl, rfl, rfl, rfl⟩

/-- `cmicRow9` with a different `dollar_amount`: the key tuple — and hence the
`ID` — is unchanged. -/
def cmicRow9' : CmicRaw :=
  { cmicRow9 with dollar_amount := some 20 }

/-- **C8** (counterexample). `clean_cmic` performs no de-duplication: two
input rows that agree on the six key columns but differ in `dollar_amount`
both survive normalization with the *same* `ID`, so `ID` is not unique within
a normalized record set. -/
theorem c8_id_uniqueness_counterexample :
    (clean_cmic [cmicRow9, cmicRow9']).map (List.map Record.ID)
      = Except.ok [Val.vstr "100_5_20_0010000_3_Contract",
                   Val.vstr "100_5_20_0010000_3_Contract"]
    ∧ (clean_cmic [cmicRow9, cmicRow9']).map (List.map Record.dollar_amount)
      = Except.ok [Val.vnum 10, Val.vnum 20] :=
  ⟨rfl, rfl⟩

/-- **C10**. The only row filter in `clean_cmic` is the null-`job_no` filter of
line 50 (on success the output has exactly one record per retained row), and a
retained row carrying a null — or otherwise not integer-castable — value in
`vendor_no`, `item_no`, `job_cost_no` or `category` makes `clean_cmic` raise:
the `convert_to_str` coercion of lines 16–17/62–63 has no guard. -/
theorem c10_clean_cmic_null_filter_and_errors :
    (∀ (rows : List CmicRaw) (recs : List Record), clean_cmic rows = Except.ok recs →
      recs.length = (rows.filter fun r => r.job_no.isSome).length)
    ∧ (∀ rows : List CmicRaw,
        (∃ r ∈ rows, r.job_no.isSome ∧
          (r.vendor_no = none ∨ r.item_no = none ∨ r.job_cost_no = none
            ∨ r.category = none)) →
        isErr (clean_cmic rows) = true) := by
  constructor
  · intro rows recs h
    exact ((exceptMapM_ok_iff _ _ _).mp h).length_eq.symm
  · intro rows hex
    obtain ⟨r, hr, hjob, hnone⟩ := hex
    apply exceptMapM_error_of_mem _ _ r (List.mem_filter.mpr ⟨hr, hjob⟩)
    cases he : cmicExtract r with
    | error e => rfl
    | ok rec =>
      obtain ⟨-, -, h1, h2, h3, h4⟩ := cmicExtract_ok_shape r rec he
      rcases hnone with h | h | h | h
      · rw [h] at h1; cases h1
      · rw [h] at h2; cases h2
      · rw [h] at h3; cases h3
      · rw [h] at h4; cases h4

/-- The record `clean_cmic` produces from `cmicRow9`. -/
def cmicRec9 : Record :=
  { job_no := Val.vstr "100", job_name := Val.vstr "JOB",
    subcontract_no := Val.vstr "5", vendor_no := Val.vstr "7",
    vendor_name := Val.vstr "vendor", item_no := Val.vstr "20",
    item_name := Val.vstr "item", category := Val.vstr "3",
    phase_no := Val.vstr "0010000", job_cost_no := Val.vstr "9",
    cont_or_co := Val.vstr "Contract", co_date := Val.vnull,
    qty := Val.vnum 1, qty_type := Val.vstr "LS", dollar_amount := Val.vnum 10,
    cont_total := Val.vnum 10, vendor_total := Val.vnum 10,
    ID := Val.vstr "100_5_20_0010000_3_Contract" }

/-- `cmicRow9` with a null `vendor_no`. -/
def cmicRowBadVendor : CmicRaw := { cmicRow9 with vendor_no := none }

/-- Witness for C10: the success branch counts one record for the one
retained row, and a null `vendor_no` on a retained row raises. -/
theorem c10_clean_cmic_null_filter_and_errors_witness :
    ([cmicRec9] : List Record).length
        = ([cmicRow9].filter fun r => r.job_no.isSome).length
    ∧ isErr (clean_cmic [cmicRowBadVendor]) = true :=
  ⟨c10_clean_cmic_null_filter_and_errors.1 [cmicRow9] [cmicRec9] rfl,
   c10_clean_cmic_null_filter_and_errors.2 [cmicRowBadVendor]
     ⟨cmicRowBadVendor, by decide, by decide, Or.inl rfl⟩⟩

/-- The record `clean_cmic` produces from `cmicRow9'`. -/
def cmicRec9' : Record := { cmicRec9 with dollar_amount := Val.vnum 20 }

/-- **C2** (counterexample). A normalized record set can carry duplicate
`ID`s (no de-duplication guards against it), and on such an input the outer
merge emits that `ID` more than once: here twice for a two-record CMIC input
against an empty SL input. -/
theorem c2_outer_join_counterexample :
    clean_cmic [cmicRow9, cmicRow9'] = Except.ok [cmicRec9, cmicRec9']
    ∧ (compare_dfs [cmicRec9, cmicRec9'] []).countP
        (fun r => r.merged.ID == Val.vstr "100_5_20_0010000_3_Contract") = 2 :=
  ⟨rfl, rfl⟩

/-- Witness for the amended C2 theorem on a one-record CMIC input and an
empty SL input. -/
theorem c2_compare_dfs_full_outer_join_witness :
    (compare_dfs [cmicRec9] []).countP
      (fun r => r.merged.ID == Val.vstr "100_5_20_0010000_3_Contract") = 1 :=
  (c2_compare_dfs_full_outer_join [cmicRec9] [] (by decide) (by decide)).1
    (Val.vstr "100_5_20_0010000_3_Contract") (Or.inl (by decide))

/-- Witness for C6: both sides `'Contract'`, both `co_date` null, forced
comparison `true`. -/
theorem c6_contract_forces_co_date_true_witness :
    ((compare_dfs [cmicRec9] [cmicRec9]).get ⟨0, by decide⟩).cmp Col.co_date
      = some true :=
  c6_contract_forces_co_date_true [cmicRec9] [cmicRec9] _
    (List.get_mem _ _ _) rfl rfl

/-- `cmicRec9` with a null `qty`, for exercising the null-comparison rule. -/
def cmicRec9nq : Record := { cmicRec9 with qty := Val.vnull }

/-- Witness for C7: a row whose two `qty` values are both null compares
`false` on `qty`. -/
theorem c7_null_never_equals_null_witness :
    ((compare_dfs [cmicRec9nq] [cmicRec9nq]).get ⟨0, by decide⟩).cmp Col.qty
      = some false :=
  c7_null_never_equals_null [cmicRec9nq] [cmicRec9nq] _
    (List.get_mem _ _ _) Col.qty (by decide) rfl rfl
    (fun h => absurd h.1 (by decide))

/-- One raw row of the headerless SL export: the fourteen positional columns
the script reads (a cell is a string or null — `pd.read_csv` keeps these
columns as text because of embedded thousands separators). -/
structure SlRaw where
  c20 : Option String
  c26 : Option String
  c41 : Option String
  c42 : Option String
  c47 : Option String
  c48 : Option String
  c56 : Option String
  c57 : Option String
  c102 : Option String
  c105 : Option String
  c106 : Option String
  c108 : Option String
  c128 : Option String
  c129 : Option String
deriving DecidableEq, Repr

/-- Python `==` on two cells: equal strings are equal; a null (`NaN`) equals
nothing, not even another null. -/
def cellEq : Option String → Option String → Bool
  | some a, some b => a == b
  | _, _ => false

/-- `sl_cont_or_co` (source lines 74–78): `'Contract'` when the two cells
compare equal under Python `==`, else `'CO'`. -/
def sl_cont_or_co (val1 val2 : Option String) : String :=
  if cellEq val1 val2 then "Contract" else "CO"

/-- `gather_co_rel_data` (source lines 80–84): pick the change-order column
for `'CO'` rows and the base-contract column otherwise. -/
def gather_co_rel_data (cont_type : String) (cont_val co_val : Option String) :
    Option String :=
  if cont_type == "CO" then co_val else cont_val

/-- An SL row after lines 93–95: the raw row with its derived `cont_or_co`
and parsed `co_date` columns. -/
structure SlAnn where
  raw : SlRaw
  cont_or_co : String
  co_date : Option String
deriving DecidableEq, Repr

/-- Lines 93–95 for one row. -/
def slAnnotate (r : SlRaw) : SlAnn :=
  ⟨r, sl_cont_or_co r.c47 r.c48, to_datetime r.c102⟩

/-- `df.drop_duplicates(key_cols)` with the default `keep='first'`: keep a
row when its key has not been seen above it. -/
def dropDupsBy {β : Type} [DecidableEq β] (key : α → β) :
    List α → List β → List α
  | [], _ => []
  | x :: xs, seen =>
    if key x ∈ seen then dropDupsBy key xs seen
    else x :: dropDupsBy key xs (key x :: seen)

/-- The de-duplication key of source line 96: raw columns 41 and 42 plus the
derived `cont_or_co` and `co_date`. -/
def slDedupKey (a : SlAnn) : Option String × Option String × String × Option String :=
  (a.raw.c41, a.raw.c42, a.cont_or_co, a.co_date)

/-- Pair every row with its positional index (the dataframe index). -/
def withIdx (n : Nat) : List α → List (Nat × α)
  | [] => []
  | x :: xs => (n, x) :: withIdx (n + 1) xs

/-- The recursion of `mergeIdx`, driven by a fuel counter (one unit per
emitted element) so that it is structurally recursive and evaluates inside
the kernel.  `mergeIdx` always supplies exactly enough fuel. -/
def mergeIdxGo (fuel : Nat) (a b : List (Nat × α)) : List (Nat × α) :=
  match fuel with
  | 0 => a ++ b
  | fuel + 1 =>
    match a, b with
    | [], ys => ys
    | x :: xs, [] => x :: xs
    | x :: xs, y :: ys =>
      if x.1 ≤ y.1 then x :: mergeIdxGo fuel xs (y :: ys)
      else y :: mergeIdxGo fuel (x :: xs) ys

/-- Merge two index-annotated lists in index order (ties: left list first) —
`sort_index()` applied to the concatenation of two subsequences of one frame. -/
def mergeIdx (a b : List (Nat × α)) : List (Nat × α) :=
  mergeIdxGo (a.length + b.length) a b

theorem mergeIdx_nil_left (b : List (Nat × α)) : mergeIdx [] b = b := by
  cases b <;> simp [mergeIdx, mergeIdxGo]

theorem mergeIdx_nil_right (a : List (Nat × α)) : mergeIdx a [] = a := by
  cases a <;> simp [mergeIdx, mergeIdxGo]

theorem mergeIdx_cons_cons (x y : Nat × α) (xs ys : List (Nat × α)) :
    mergeIdx (x :: xs) (y :: ys) =
      if x.1 ≤ y.1 then x :: mergeIdx xs (y :: ys)
      else y :: mergeIdx (x :: xs) ys := by
  have h1 : (x :: xs).length + (y :: ys).length
      = (xs.length + (y :: ys).length) + 1 := by
    simp only [List.length_cons]; omega
  have h2 : xs.length + (y :: ys).length = (x :: xs).length + ys.length := by
    simp only [List.length_cons]; omega
  rw [mergeIdx, h1, mergeIdxGo]
  rw [mergeIdx, mergeIdx, ← h2]

/-- The filter of source line 97,
`df[df['cont_or_co']=='Contract'].append(df[~(df['co_date'].isnull())]).sort_index()`:
select the `'Contract'` rows, append the rows with a date, and re-sort by the
original index. -/
def slFilter (l : List SlAnn) : List SlAnn :=
  let idx := withIdx 0 l
  (mergeIdx (idx.filter fun p => p.2.cont_or_co == "Contract")
            (idx.filter fun p => p.2.co_date.isSome)).map Prod.snd

/-- Python `split(sep)[i]` for a possibly out-of-range `i`: an `IndexError`
when the split has too few parts. -/
def pySplitIdx (s sep : String) (i : Nat) : Except String String :=
  match (pySplit sep s).get? i with
  | some t => Except.ok t
  | none => Except.error "IndexError: list index out of range"

/-- Python `split(sep)[-1]`: the last part (a split is never empty). -/
def pySplitLast (s sep : String) : String :=
  (pySplit sep s).getLastD ""

/-- Python `split(sep)[0]`: the first part (a split is never empty). -/
def pySplitHead (s sep : String) : String :=
  (pySplit sep s).headD ""

/-- `.map(lambda x: x.split(...))` over a column containing a null raises
(`AttributeError` on the float `NaN`). -/
def reqStr : Option String → Except String String
  | some s => Except.ok s
  | none => Except.error "AttributeError: nan has no attribute split"

/-- `.astype(float)` on one cell string. -/
def pyFloat (s : String) : Except String Rat :=
  match parseFloat? s with
  | some q => Except.ok q
  | none => Except.error "ValueError: could not convert string to float"

/-- `.str.replace(',', '')`: remove every comma. -/
def removeCommas (s : String) : String :=
  String.mk (s.data.filter fun c => !(c == ','))

/-- `.str.replace(',', '').astype(float)` on a nullable cell: a null passes
through as `NaN`, a string must parse. -/
def pyFloatCell : Option String → Except String (Option Rat)
  | some s => (pyFloat (removeCommas s)).map some
  | none => Except.ok none

/-- The field extraction of `clean_sl` (source lines 99–128) for one row that
survived the de-duplication and filter of lines 96–97. -/
def slExtract (a : SlAnn) : Except String Record := do
  let r := a.raw
  let c26 ← reqStr r.c26
  let t26 ← pySplitIdx c26 " " 4
  let job_no := pyStrip (pySplitHead t26 "-")
  let jn ← pySplitIdx c26 "- " 1
  let job_name := pyStrip jn
  let c20 ← reqStr r.c20
  let subcontract_no ← pySplitIdx c20 " " 3
  let t20 ← pySplitIdx c20 ": " 2
  let vendor_no0 ← pySplitIdx t20 " " 2
  let vendor_no := pyStrip vendor_no0
  let vendor_name := pyLower (pyStrip (pySlice 15 (pyStrip (pySplitLast t20 "  "))))
  let c41 ← reqStr r.c41
  let item_no := pyStrip (pySplitLast c41 ": ")
  let c42 ← reqStr r.c42
  let item_name := pyLower (pyStrip (pySlice 30 (pyStrip (pySplitHead c42 "  "))))
  let category := pyStrip (pySplitLast c42 ": ")
  let phase_no := pyStripChar '.'
    (pyStrip (pySplitHead (pySplitLast (pdAstypeStr r.c42) "Phase: ") "  "))
  let job_cost_no := pyStrip (pySplitLast (pySplitHead c42 "- ") " ")
  let qty ← pyFloat (removeCommas ((gather_co_rel_data a.cont_or_co r.c57 r.c106).getD "0"))
  let qty_type := (gather_co_rel_data a.cont_or_co r.c56 r.c105).getD "LS"
  let dollar_amount ← pyFloatCell (gather_co_rel_data a.cont_or_co r.c47 r.c108)
  let cont_total ← pyFloatCell r.c128
  let vendor_total ← pyFloatCell r.c129
  Except.ok {
    job_no := Val.vstr job_no
    job_name := Val.vstr job_name
    subcontract_no := Val.vstr subcontract_no
    vendor_no := Val.vstr vendor_no
    vendor_name := Val.vstr vendor_name
    item_no := Val.vstr item_no
    item_name := Val.vstr item_name
    category := Val.vstr category
    phase_no := Val.vstr phase_no
    job_cost_no := Val.vstr job_cost_no
    cont_or_co := Val.vstr a.cont_or_co
    co_date := optDateVal a.co_date
    qty := Val.vnum qty
    qty_type := Val.vstr qty_type
    dollar_amount := optNumVal dollar_amount
    cont_total := optNumVal cont_total
    vendor_total := optNumVal vendor_total
    ID := combine_cols [Val.vstr job_no, Val.vstr subcontract_no, Val.vstr item_no,
      Val.vstr phase_no, Val.vstr category, Val.vstr a.cont_or_co] }

/-- `clean_sl` (source lines 86–130): derive `cont_or_co` and `co_date`
(lines 93–95), de-duplicate on `(41, 42, cont_or_co, co_date)` (line 96),
apply the Contract-or-dated filter (line 97), then extract the canonical
fields from every remaining row (lines 99–128). -/
def clean_sl (rows : List SlRaw) : Except String (List Record) :=
  exceptMapM slExtract
    (slFilter (dropDupsBy slDedupKey (rows.map slAnnotate) []))

theorem mem_mergeIdx {α : Type} : ∀ (a b : List (Nat × α)) (x : Nat × α),
    x ∈ mergeIdx a b → x ∈ a ∨ x ∈ b
  | [], b, x, h => Or.inr (by simpa [mergeIdx_nil_left] using h)
  | a :: as, [], x, h => Or.inl (by simpa [mergeIdx_nil_right] using h)
  | a :: as, b :: bs, x, h => by
    rw [mergeIdx_cons_cons] at h
    split at h
    · rcases List.mem_cons.mp h with rfl | h'
      · exact Or.inl (List.mem_cons_self _ _)
      · rcases mem_mergeIdx as (b :: bs) x h' with h1 | h2
        · exact Or.inl (List.mem_cons_of_mem _ h1)
        · exact Or.inr h2
    · rcases List.mem_cons.mp h with rfl | h'
      · exact Or.inr (List.mem_cons_self _ _)
      · rcases mem_mergeIdx (a :: as) bs x h' with h1 | h2
        · exact Or.inl h1
        · exact Or.inr (List.mem_cons_of_mem _ h2)
termination_by a b => a.length + b.length

theorem mem_withIdx {α : Type} : ∀ (n : Nat) (l : List α) (p : Nat × α),
    p ∈ withIdx n l → p.2 ∈ l := by
  intro n l
  induction l generalizing n with
  | nil => intro p h; simp [withIdx] at h
  | cons x xs ih =>
    intro p h
    rw [withIdx] at h
    rcases List.mem_cons.mp h with rfl | h'
    · exact List.mem_cons_self _ _
    · exact List.mem_cons_of_mem _ (ih (n + 1) p h')

theorem slFilter_subset {a : SlAnn} {l : List SlAnn} (h : a ∈ slFilter l) :
    a ∈ l := by
  rw [slFilter] at h
  obtain ⟨p, hp, hpa⟩ := List.mem_map.mp h
  rcases mem_mergeIdx _ _ _ hp with h1 | h1 <;>
    exact hpa ▸ mem_withIdx 0 l p (List.mem_filter.mp h1).1

theorem dropDupsBy_subset {β : Type} [DecidableEq β] {key : α → β} :
    ∀ {l : List α} {seen : List β} {a : α}, a ∈ dropDupsBy key l seen → a ∈ l := by
  intro l
  induction l with
  | nil => intro seen a h; simp [dropDupsBy] at h
  | cons x xs ih =>
    intro seen a h
    rw [dropDupsBy] at h
    split at h
    · exact List.mem_cons_of_mem _ (ih h)
    · rcases List.mem_cons.mp h with rfl | h'
      · exact List.mem_cons_self _ _
      · exact List.mem_cons_of_mem _ (ih h')

theorem slExtract_ok_shape (a : SlAnn) (rec : Record)
    (h : slExtract a = Except.ok rec) :
    rec.cont_or_co = Val.vstr a.cont_or_co
    ∧ rec.ID = combine_cols (keyVals rec) := by
  rw [slExtract] at h
  obtain ⟨c26, h26, h⟩ := except_bind_ok.mp h
  obtain ⟨t26, ht26, h⟩ := except_bind_ok.mp h
  obtain ⟨jn, hjn, h⟩ := except_bind_ok.mp h
  obtain ⟨c20, h20, h⟩ := except_bind_ok.mp h
  obtain ⟨sub, hsub, h⟩ := except_bind_ok.mp h
  obtain ⟨t20, ht20, h⟩ := except_bind_ok.mp h
  obtain ⟨vn0, hvn0, h⟩ := except_bind_ok.mp h
  obtain ⟨c41, h41, h⟩ := except_bind_ok.mp h
  obtain ⟨c42, h42, h⟩ := except_bind_ok.mp h
  obtain ⟨qty, hqty, h⟩ := except_bind_ok.mp h
  obtain ⟨dol, hdol, h⟩ := except_bind_ok.mp h
  obtain ⟨ct, hct, h⟩ := except_bind_ok.mp h
  obtain ⟨vt, hvt, h⟩ := except_bind_ok.mp h
  cases h
  exact ⟨rfl, rfl⟩

theorem clean_sl_mem_source (rows : List SlRaw) (recs : List Record)
    (h : clean_sl rows = Except.ok recs) (rec : Record) (hrec : rec ∈ recs) :
    ∃ r ∈ rows, slExtract (slAnnotate r) = Except.ok rec := by
  rw [clean_sl] at h
  obtain ⟨a, ha, hok⟩ := forall₂_mem_right ((exceptMapM_ok_iff _ _ _).mp h) hrec
  obtain ⟨r, hr, hra⟩ := List.mem_map.mp (dropDupsBy_subset (slFilter_subset ha))
  exact ⟨r, hr, hra ▸ hok⟩

/-- A well-formed SL row whose two amount columns 47 and 48 are both null. -/
def slRowC3 : SlRaw :=
  { c20 := some "a b c SUB x: y: p q VN  VENDORNAME",
    c26 := some "w x y z 100-A - JOBNAME",
    c41 := some "Item: 7",
    c42 := some "JC 55- ITEMNAME  Phase: 0010000.  Cat: 3",
    c47 := none, c48 := none,
    c56 := some "LS", c57 := some "1,500.00",
    c102 := some "10/1/2019",
    c105 := some "EA", c106 := some "2",
    c108 := some "3,000.00",
    c128 := some "10,000.00", c129 := some "9,000.00" }

/-- The record `clean_sl` produces from `slRowC3`. -/
def slRecC3 : Record :=
  { job_no := Val.vstr "100", job_name := Val.vstr "JOBNAME",
    subcontract_no := Val.vstr "SUB", vendor_no := Val.vstr "VN",
    vendor_name := Val.vstr "vendorname", item_no := Val.vstr "7",
    item_name := Val.vstr "jc 55- itemname", category := Val.vstr "3",
    phase_no := Val.vstr "0010000", job_cost_no := Val.vstr "55",
    cont_or_co := Val.vstr "CO", co_date := Val.vdate "10/1/2019",
    qty := Val.vnum 2, qty_type := Val.vstr "EA",
    dollar_amount := Val.vnum 3000, cont_total := Val.vnum 10000,
    vendor_total := Val.vnum 9000,
    ID := Val.vstr "100_SUB_7_0010000_3_CO" }

/-- **C3** (counterexample). The claim calls two null amount cells "exactly
equal" and predicts `'Contract'`; pandas' `NaN == NaN` is false, so the code
assigns `'CO'` to a row whose columns 47 and 48 are both null. -/
theorem c3_sl_cont_or_co_counterexample :
    slRowC3.c47 = none ∧ slRowC3.c48 = none
    ∧ (clean_sl [slRowC3]).map (List.map Record.cont_or_co)
        = Except.ok [Val.vstr "CO"] :=
  ⟨rfl, rfl, rfl⟩

/-- **C3** (amended). Every `clean_sl` output row gets
`cont_or_co = sl_cont_or_co(col47, col48)` from its source row, and that is
`'Contract'` iff the two cells are *non-null and equal*; a null — including
the both-null case — compares unequal and yields `'CO'`. -/
theorem c3_sl_cont_or_co_iff :
    (∀ (rows : List SlRaw) (recs : List Record), clean_sl rows = Except.ok recs →
      ∀ rec ∈ recs, ∃ r ∈ rows,
        rec.cont_or_co = Val.vstr (sl_cont_or_co r.c47 r.c48))
    ∧ (∀ v1 v2 : Option String,
        sl_cont_or_co v1 v2 = "Contract" ↔ ∃ s, v1 = some s ∧ v2 = some s) := by
  constructor
  · intro rows recs h rec hrec
    obtain ⟨r, hr, hok⟩ := clean_sl_mem_source rows recs h rec hrec
    exact ⟨r, hr, (slExtract_ok_shape _ rec hok).1⟩
  · intro v1 v2
    cases v1 with
    | none => simp [sl_cont_or_co, cellEq]
    | some a =>
      cases v2 with
      | none => simp [sl_cont_or_co, cellEq]
      | some b =>
        by_cases hab : a = b
        · subst hab
          constructor
          · intro _; exact ⟨a, rfl, rfl⟩
          · intro _
            rw [sl_cont_or_co, if_pos]
            simp [cellEq]
        · constructor
          · intro h
            rw [sl_cont_or_co, if_neg (by simp [cellEq, hab])] at h
            exact absurd h (by decide)
          · rintro ⟨s, hs1, hs2⟩
            exact absurd ((Option.some.inj hs1).trans (Option.some.inj hs2).symm) hab

/-- Witness for the amended C3 theorem on the concrete both-null row. -/
theorem c3_sl_cont_or_co_iff_witness :
    ∃ r ∈ [slRowC3], (slRecC3 : Record).cont_or_co
      = Val.vstr (sl_cont_or_co r.c47 r.c48) :=
  c3_sl_cont_or_co_iff.1 [slRowC3] [slRecC3] rfl slRecC3 (List.mem_singleton.mpr rfl)

/-- `slRowC3` with equal non-null amount columns 47 and 48 (a `'Contract'`
row) and a non-null change-order date. -/
def slRowC4 : SlRaw :=
  { slRowC3 with c47 := some "1,500.00", c48 := some "1,500.00" }

/-- **C4** (counterexample). A row that is both `'Contract'` and has a
non-null `co_date` satisfies both selections of line 97, so
`append` keeps it twice: one input row, two identical output records. -/
theorem c4_sl_filter_counterexample :
    sl_cont_or_co slRowC4.c47 slRowC4.c48 = "Contract"
    ∧ slRowC4.c102 = some "10/1/2019"
    ∧ (clean_sl [slRowC4]).map List.length = Except.ok 2 :=
  ⟨rfl, rfl, rfl⟩

theorem mem_withIdx_ge {α : Type} : ∀ (n : Nat) (l : List α) (p : Nat × α),
    p ∈ withIdx n l → n ≤ p.1 := by
  intro n l
  induction l generalizing n with
  | nil => intro p h; simp [withIdx] at h
  | cons x xs ih =>
    intro p h
    rw [withIdx] at h
    rcases List.mem_cons.mp h with rfl | h'
    · exact Nat.le_refl n
    · exact Nat.le_of_succ_le (ih (n + 1) p h')

theorem mergeIdx_cons_left {α : Type} {k : Nat} {x : α} {xs ys : List (Nat × α)}
    (h : ∀ p ∈ ys, k < p.1) :
    mergeIdx ((k, x) :: xs) ys = (k, x) :: mergeIdx xs ys := by
  cases ys with
  | nil => rw [mergeIdx_nil_right, mergeIdx_nil_right]
  | cons y ys' =>
    rw [mergeIdx_cons_cons, if_pos]
    exact Nat.le_of_lt (h y (List.mem_cons_self _ _))

theorem mergeIdx_cons_right {α : Type} {k : Nat} {y : α} {xs ys : List (Nat × α)}
    (h : ∀ p ∈ xs, k < p.1) :
    mergeIdx xs ((k, y) :: ys) = (k, y) :: mergeIdx xs ys := by
  cases xs with
  | nil => rw [mergeIdx_nil_left, mergeIdx_nil_left]
  | cons x xs' =>
    rw [mergeIdx_cons_cons, if_neg]
    exact Nat.not_le_of_lt (h x (List.mem_cons_self _ _))

theorem slFilterAux_eq (n : Nat) (l : List SlAnn) :
    (mergeIdx ((withIdx n l).filter fun p => p.2.cont_or_co == "Contract")
              ((withIdx n l).filter fun p => p.2.co_date.isSome)).map Prod.snd
      = l.flatMap fun a =>
          if a.cont_or_co == "Contract" && a.co_date.isSome then [a, a]
          else if a.cont_or_co == "Contract" || a.co_date.isSome then [a]
          else [] := by
  induction l generalizing n with
  | nil => simp [withIdx, mergeIdx_nil_left]
  | cons a l ih =>
    have hge : ∀ p ∈ withIdx (n + 1) l, n < p.1 := fun p hp =>
      Nat.lt_of_lt_of_le (Nat.lt_succ_self n) (mem_withIdx_ge _ _ _ hp)
    have hgeP : ∀ p ∈ (withIdx (n + 1) l).filter
        (fun p => p.2.cont_or_co == "Contract"), n < p.1 :=
      fun p hp => hge p (List.mem_of_mem_filter hp)
    have hgeQ : ∀ p ∈ (withIdx (n + 1) l).filter
        (fun p => p.2.co_date.isSome), n < p.1 :=
      fun p hp => hge p (List.mem_of_mem_filter hp)
    rw [withIdx, List.flatMap_cons, ← ih (n + 1)]
    cases hP : (a.cont_or_co == "Contract") <;> cases hQ : a.co_date.isSome
    · rw [List.filter_cons, List.filter_cons, if_neg (by simp [hP]),
        if_neg (by simp [hQ])]
      simp [hP, hQ]
    · rw [List.filter_cons, List.filter_cons, if_neg (by simp [hP]), if_pos hQ,
        mergeIdx_cons_right hgeP]
      simp [hP, hQ]
    · rw [List.filter_cons, List.filter_cons, if_pos hP, if_neg (by simp [hQ]),
        mergeIdx_cons_left hgeQ]
      simp [hP, hQ]
    · rw [List.filter_cons, List.filter_cons, if_pos hP, if_pos hQ,
        mergeIdx_cons_cons, if_pos (Nat.le_refl n), mergeIdx_cons_right hgeP]
      simp [hP, hQ]

/-- **C4** (amended). The line-97 filter keeps a row exactly when
`cont_or_co == 'Contract'` or `co_date` is non-null, preserving the original
relative order — but a row satisfying *both* conditions is selected by both
operands of `append` and therefore appears twice, not once. -/
theorem c4_sl_filter_keep_rule :
    ∀ l : List SlAnn, slFilter l = l.flatMap fun a =>
      if a.cont_or_co == "Contract" && a.co_date.isSome then [a, a]
      else if a.cont_or_co == "Contract" || a.co_date.isSome then [a]
      else [] := by
  intro l
  rw [slFilter]
  exact slFilterAux_eq 0 l

/-- A key cell that is a string free of the `'_'` separator. -/
def isUndFreeStr : Val → Bool
  | Val.vstr s => !(s.data.contains '_')
  | _ => false

theorem isUndFreeStr_iff (v : Val) :
    isUndFreeStr v = true ↔ ∃ s, v = Val.vstr s ∧ noUnd s := by
  cases v <;> simp [isUndFreeStr, noUnd]

theorem vstr_key_list : ∀ (vs : List Val), (∀ v ∈ vs, isUndFreeStr v = true) →
    ∃ ls : List String, vs = ls.map Val.vstr ∧ ls.length = vs.length
      ∧ ∀ s ∈ ls, noUnd s := by
  intro vs
  induction vs with
  | nil => intro _; exact ⟨[], rfl, rfl, by simp⟩
  | cons v vs ih =>
    intro h
    obtain ⟨ls, hls, hlen, hnd⟩ := ih fun x hx => h x (List.mem_cons_of_mem _ hx)
    obtain ⟨s, rfl, hnds⟩ := (isUndFreeStr_iff v).mp (h v (List.mem_cons_self _ _))
    refine ⟨s :: ls, by simp [hls], by simp [hlen], ?_⟩
    intro t ht
    rcases List.mem_cons.mp ht with rfl | ht'
    · exact hnds
    · exact hnd t ht'

theorem nodup_ID_of_keys (recs : List Record)
    (hid : ∀ rec ∈ recs, rec.ID = combine_cols (keyVals rec))
    (hstr : ∀ rec ∈ recs, ∀ v ∈ keyVals rec, isUndFreeStr v = true)
    (hpw : recs.Pairwise fun a b => keyVals a ≠ keyVals b) :
    (recs.map Record.ID).Nodup := by
  rw [List.Nodup, List.pairwise_map]
  refine hpw.imp_of_mem ?_
  intro a b ha hb hne hideq
  apply hne
  obtain ⟨la, hla, hlena, hnda⟩ := vstr_key_list (keyVals a) (hstr a ha)
  obtain ⟨lb, hlb, hlenb, hndb⟩ := vstr_key_list (keyVals b) (hstr b hb)
  have h6a : (keyVals a).length = 6 := rfl
  have h6b : (keyVals b).length = 6 := rfl
  have hnea : la ≠ [] := by
    intro hnil; rw [hnil] at hlena; rw [h6a] at hlena; cases hlena
  have hll : la.length = lb.length := by rw [hlena, hlenb, h6a, h6b]
  rw [hid a ha, hid b hb, hla, hlb,
    combine_cols_map_vstr la hnea,
    combine_cols_map_vstr lb (by intro hnil; rw [hnil] at hlenb; rw [h6b] at hlenb; cases hlenb),
    Val.vstr.injEq] at hideq
  rw [hla, hlb, joined_inj la lb hll hnea hnda hndb hideq]

/-- **C8** (amended). Normalization does not itself make `ID` unique; what
holds is a sufficient condition: for either source, if every key cell of the
normalized records is a *non-null* string containing no `'_'` and the records'
six-column key tuples are pairwise distinct, then the produced `ID`s are
pairwise distinct.  Both parts of the proviso are needed: duplicate key tuples
keep one `ID` each (the counterexample), and a null key cell — e.g. a null
`subcontract_no`, which `clean_cmic` neither converts nor filters — makes
`combine_cols` null-propagate, so rows with distinct key tuples would share a
null `ID`. -/
theorem c8_id_unique_under_distinct_keys :
    (∀ (rows : List CmicRaw) (recs : List Record), clean_cmic rows = Except.ok recs →
      (∀ rec ∈ recs, ∀ v ∈ keyVals rec, isUndFreeStr v = true) →
      recs.Pairwise (fun a b => keyVals a ≠ keyVals b) →
      (recs.map Record.ID).Nodup)
    ∧ (∀ (rows : List SlRaw) (recs : List Record), clean_sl rows = Except.ok recs →
      (∀ rec ∈ recs, ∀ v ∈ keyVals rec, isUndFreeStr v = true) →
      recs.Pairwise (fun a b => keyVals a ≠ keyVals b) →
      (recs.map Record.ID).Nodup) := by
  constructor
  · intro rows recs h hstr hpw
    refine nodup_ID_of_keys recs (fun rec hrec => ?_) hstr hpw
    rw [clean_cmic] at h
    obtain ⟨r, _, hok⟩ := forall₂_mem_right ((exceptMapM_ok_iff _ _ _).mp h) hrec
    exact (cmicExtract_ok_shape r rec hok).2.1
  · intro rows recs h hstr hpw
    refine nodup_ID_of_keys recs (fun rec hrec => ?_) hstr hpw
    obtain ⟨r, _, hok⟩ := clean_sl_mem_source rows recs h rec hrec
    exact (slExtract_ok_shape _ rec hok).2

/-- Witness for the amended C8 theorem: concrete one-row normalizations with
underscore-free, pairwise-distinct key cells yield duplicate-free `ID`s. -/
theorem c8_id_unique_under_distinct_keys_witness :
    (([cmicRec9] : List Record).map Record.ID).Nodup
    ∧ (([slRecC3] : List Record).map Record.ID).Nodup :=
  ⟨c8_id_unique_under_distinct_keys.1 [cmicRow9] [cmicRec9] rfl (by decide)
      (List.pairwise_singleton _ _),
   c8_id_unique_under_distinct_keys.2 [slRowC3] [slRecC3] rfl (by decide)
      (List.pairwise_singleton _ _)⟩
